import Mathlib

/-
  Shallow embedding of the ExcelParser repository (src/include/ExcelParser.cpp,
  declared in ExcelParser.hpp).  The C++ code reads an OOXML spreadsheet from a
  zip archive with libzip, parses the member XML files with boost property
  trees, and caches the result in two static std::map registries.

  The embedding models:
  - std::map  as a key-sorted association list (Smap) with std::map semantics:
    emplace inserts only when the key is absent, operator-bracket-plus-emplace
    is expressed with setVal, erase removes the key;
  - boost property trees as an inductive tree of (name, subtree) child lists
    with node data;
  - C++ exceptions as an Except monad over an exception-kind type Exc that
    keeps the catch-matching structure of the source.  In particular the
    source writes `throw new std::runtime_error(...)` in readFileFromArchive
    and getAttributes, which throws a POINTER (std::runtime_error*); none of
    the catch clauses in the source (`catch (std::runtime_error)`,
    `catch (boost::property_tree::ptree_error)`, `catch (std::out_of_range)`)
    matches a pointer, so those exceptions always propagate.  This is kept
    in the model as the kind Exc.rtPtr, for which every isRuntimeError /
    isPtreeError / isOutOfRange test is false.
-/

namespace ExcelParser

/-- Exception kinds thrown by the code.  `rtPtr` is `throw new
std::runtime_error(...)` (a thrown pointer, matched by no handler in the
source); `rt` is `throw std::runtime_error(...)` by value;
`ptree` is `boost::property_tree::ptree_error`, which derives from
std::runtime_error; `oor` is std::out_of_range and `invArg` is
std::invalid_argument, both deriving from std::logic_error (not
runtime_error); `procExit` models `exit(1)`. -/
inductive Exc where
  | rtPtr (msg : String)
  | rt (msg : String)
  | ptree (msg : String)
  | oor (msg : String)
  | invArg (msg : String)
  | procExit (code : Int)
deriving DecidableEq, Repr

/-- Matches `catch (boost::property_tree::ptree_error)`. -/
def Exc.isPtreeError : Exc → Bool
  | .ptree _ => true
  | _ => false

/-- Matches `catch (std::runtime_error)`: catches runtime_error by value and
its derived class ptree_error, but not a thrown pointer (`rtPtr`) and not the
logic_error family (`oor`, `invArg`). -/
def Exc.isRuntimeError : Exc → Bool
  | .rt _ => true
  | .ptree _ => true
  | _ => false

/-- Matches `catch (std::out_of_range)`. -/
def Exc.isOutOfRange : Exc → Bool
  | .oor _ => true
  | _ => false

/-- Boost property tree: node data plus the ordered list of named children. -/
inductive Ptree where
  | node (data : String) (children : List (String × Ptree))
deriving Repr

def Ptree.data : Ptree → String
  | .node d _ => d

def Ptree.children : Ptree → List (String × Ptree)
  | .node _ c => c

/-- First child with the given name, as boost `find` / `get_child` locate it. -/
def Ptree.findChild (t : Ptree) (name : String) : Option Ptree :=
  (t.children.find? (fun p => p.1 == name)).map Prod.snd

/-- Models `tree.find(name) != tree.not_found()`. -/
def Ptree.hasChild (t : Ptree) (name : String) : Bool :=
  (Ptree.findChild t name).isSome

/-- Models `get_child` on a dot-separated path (given here pre-split);
throws ptree_error (ptree_bad_path) when a component is missing. -/
def Ptree.getChildPath : Ptree → List String → Except Exc Ptree
  | t, [] => .ok t
  | t, n :: rest =>
    match Ptree.findChild t n with
    | some c => Ptree.getChildPath c rest
    | none => .error (.ptree ("No such node (" ++ n ++ ")"))

/-- Models `get_child` on a single-component path. -/
def Ptree.getChild (t : Ptree) (name : String) : Except Exc Ptree :=
  Ptree.getChildPath t [name]

/-- The strict order a std::map uses on its keys (std::less), as a
computable Boolean comparator with its strict-total-order laws.  (Lean's
builtin String decidable order does not reduce in the kernel, so the maps
carry their own comparator; for String it is the same lexicographic
character order std::less gives on the strings that occur here.) -/
class CmpKey (K : Type) where
  ltb : K → K → Bool
  ltbIrr : ∀ a, ltb a a = false
  ltbTrans : ∀ {a b c}, ltb a b = true → ltb b c = true → ltb a c = true
  ltbTotal : ∀ {a b}, a ≠ b → ltb a b = true ∨ ltb b a = true

instance : CmpKey Int where
  ltb a b := decide (a < b)
  ltbIrr a := by simp
  ltbTrans h1 h2 := by
    simp only [decide_eq_true_eq] at *
    omega
  ltbTotal h := by
    simp only [decide_eq_true_eq]
    omega

instance : CmpKey String where
  ltb a b := decide (a.data < b.data)
  ltbIrr a := by simp
  ltbTrans h1 h2 := by
    simp only [decide_eq_true_eq] at *
    exact lt_trans h1 h2
  ltbTotal h := by
    simp only [decide_eq_true_eq]
    exact lt_or_gt_of_ne fun hc => h (String.toList_inj.mp hc)

/-- std::map modelled as a key-sorted association list. -/
abbrev Smap (K V : Type) : Type := List (K × V)

/-- Lookup, as std::map find / at locate an entry. -/
def Smap.findVal {K V : Type} [DecidableEq K] : Smap K V → K → Option V
  | [], _ => none
  | (k, v) :: t, q => if q = k then some v else Smap.findVal t q

/-- Models `m.find(k) != m.end()`. -/
def Smap.contains {K V : Type} [DecidableEq K] (m : Smap K V) (q : K) : Bool :=
  (Smap.findVal m q).isSome

/-- std::map::emplace: sorted insert that KEEPS the existing entry when the
key is already present (it does not overwrite). -/
def Smap.emplace {K V : Type} [DecidableEq K] [CmpKey K] : Smap K V → K → V → Smap K V
  | [], q, v => [(q, v)]
  | (k, w) :: t, q, v =>
    if CmpKey.ltb q k then (q, v) :: (k, w) :: t
    else if q = k then (k, w) :: t
    else (k, w) :: Smap.emplace t q v

/-- Insert-or-assign: models writing through operator[] (the combination
`outer[k] = updated inner` used to store a modified inner map back). -/
def Smap.setVal {K V : Type} [DecidableEq K] [CmpKey K] : Smap K V → K → V → Smap K V
  | [], q, v => [(q, v)]
  | (k, w) :: t, q, v =>
    if CmpKey.ltb q k then (q, v) :: (k, w) :: t
    else if q = k then (q, v) :: t
    else (k, w) :: Smap.setVal t q v

/-- std::map::erase(key). -/
def Smap.erase {K V : Type} [DecidableEq K] : Smap K V → K → Smap K V
  | [], _ => []
  | (k, w) :: t, q => if q = k then Smap.erase t q else (k, w) :: Smap.erase t q

/-- std::map::at: throws std::out_of_range when the key is absent. -/
def Smap.atVal {K V : Type} [DecidableEq K] (m : Smap K V) (q : K) : Except Exc V :=
  match Smap.findVal m q with
  | some v => .ok v
  | none => .error (.oor "map at")

def Smap.keys {K V : Type} (m : Smap K V) : List K := m.map Prod.fst

/-- std::stoi: skip leading whitespace, optional sign, longest digit prefix;
std::invalid_argument when no digits, std::out_of_range outside int range. -/
def stoi (s : String) : Except Exc Int :=
  let cs := s.data.dropWhile Char.isWhitespace
  let signed : Int × List Char :=
    match cs with
    | '-' :: t => (-1, t)
    | '+' :: t => (1, t)
    | _ => (1, cs)
  let digits := signed.2.takeWhile Char.isDigit
  if digits = [] then .error (.invArg "stoi")
  else
    let v : Int := signed.1 * (digits.foldl (fun a c => a * 10 + Int.ofNat (c.toNat - 48)) 0)
    if v < -2147483648 ∨ 2147483647 < v then .error (.oor "stoi")
    else .ok v

/-- Enumeration of the value types a cell can take (ExcelParser.hpp). -/
inductive CellType where
  | NUMBER
  | STRING
deriving DecidableEq, Repr

/-- Type and contents of a cell (ExcelParser.hpp). -/
structure cell_t where
  type : CellType
  value : String
deriving DecidableEq, Repr

/-- Row of cells keyed by the Excel column letters (ExcelParser.hpp). -/
abbrev row : Type := Smap String cell_t

/-- Sheet: map from declared row index to row (ExcelParser.hpp). -/
abbrev sheet : Type := Smap Int row

/-- Map of XML attribute names to attribute values (ExcelParser.hpp). -/
abbrev xml_attributes : Type := Smap String String

def XML_ATTR : String := "<xmlattr>"

/-- One member of the zip archive: its stored name (possibly with a
directory prefix), the stat-validity bitmask libzip reports for it, whether
zip_fread succeeds, and the XML parse result of its bytes (none models
malformed XML). -/
structure ZipEntry where
  name : String
  statValid : Nat
  readOk : Bool
  xml : Option Ptree
deriving Repr

structure ZipStat where
  valid : Nat
deriving Repr

def ZIP_STAT_NAME : Nat := 1
def ZIP_STAT_SIZE : Nat := 2

def baseNameAux : List Char → List Char → List Char
  | [], acc => acc.reverse
  | c :: rest, acc => if c = '/' then baseNameAux rest [] else baseNameAux rest (c :: acc)

/-- Final path component of a member name (ZIP_FL_NODIR comparison). -/
def baseName (s : String) : String := String.mk (baseNameAux s.data [])

/-- zip_name_locate with ZIP_FL_NODIR: index of the first member whose base
name matches, or -1 (its return type is zip_int64_t). -/
def zip_name_locate (book : List ZipEntry) (file_name : String) : Int :=
  match book.findIdx? (fun e => baseName e.name == file_name) with
  | some i => Int.ofNat i
  | none => -1

def listAt? {α : Type} : List α → Nat → Option α
  | [], _ => none
  | a :: _, 0 => some a
  | _ :: t, n + 1 => listAt? t n

/-- zip_stat_index: fills the stat of the member at the given index; on an
out-of-range index it fails, leaving the zip_stat_init state (valid = 0). -/
def zip_stat_index (book : List ZipEntry) (location : Nat) : ZipStat :=
  match listAt? book location with
  | some e => { valid := e.statValid }
  | none => { valid := 0 }

def memberNotFoundMsg (f : String) : String :=
  "[Excel Parser] (ERROR) Error cannot find file in provided archive with file_name: " ++ f

def archiveMetadataMsg (f : String) (v : Nat) : String :=
  "[Excel Parser] (ERROR) Error retrieving metadata for file " ++ f ++ ": " ++ toString v

def archiveReadMsg (f : String) : String :=
  "[Excel Parser] (ERROR) Error reading file " ++ f ++ "."

def xmlParseMsg (f : String) : String :=
  "[Excel Parser] (ERROR) Error parsing information in " ++ f

def attributesErrMsg : String :=
  "[Excel Parser] (ERROR) Error finding attributes of property tree"

def zipOpenErrMsg (e : Int) : String :=
  "[Excel Parser] (ERROR) Error opening spreadsheet archive: " ++ toString e

def docNotOpenMsg (f : String) : String :=
  "[Excel Parser] (ERROR) Error finding spreadsheet with name: " ++ f

def sheetNotFoundMsg (sn f : String) : String :=
  "[Excel Parser] (ERROR) Error finding sheet with name \"" ++ sn ++ "\" in file " ++ f

def sharedStringNotFoundMsg (i : Int) (f : String) : String :=
  "[Excel Parser] (ERROR) Error finding shared string with index " ++ toString i ++ " in file " ++ f

/-- ExcelParser::readFileFromArchive.  The source assigns the zip_int64_t
result of zip_name_locate to a zip_uint64_t `location` (value taken modulo
2^64, so -1 becomes 2^64-1) and then tests `location < 0`, which is false
for every unsigned value; the member-not-found branch is therefore dead and
a missing member instead fails the metadata-validity check.  Every throw in
this function is `throw new std::runtime_error(...)`, i.e. Exc.rtPtr. -/
def readFileFromArchive (book : List ZipEntry) (file_name : String) : Except Exc Ptree :=
  let location : Nat := ((zip_name_locate book file_name) % 18446744073709551616).toNat
  if (location : Int) < 0 then
    .error (.rtPtr (memberNotFoundMsg file_name))
  else
    let workbook_stat := zip_stat_index book location
    if Nat.land workbook_stat.valid (Nat.lor ZIP_STAT_NAME ZIP_STAT_SIZE) = 0 then
      .error (.rtPtr (archiveMetadataMsg file_name workbook_stat.valid))
    else
      match listAt? book location with
      | none => .error (.rtPtr (archiveReadMsg file_name))
      | some e =>
        if e.readOk then
          match e.xml with
          | some tree => .ok tree
          | none => .error (.rtPtr (xmlParseMsg file_name))
        else .error (.rtPtr (archiveReadMsg file_name))

/-- ExcelParser::getAttributes: collects the children of the node's
`<xmlattr>` child into a map; a ptree_error is caught and rethrown as
`throw new std::runtime_error(...)` (Exc.rtPtr). -/
def getAttributes (tree : Ptree) : Except Exc xml_attributes :=
  match Ptree.getChild tree XML_ATTR with
  | .ok attributes_tree =>
    .ok (attributes_tree.children.foldl (fun m p => Smap.emplace m p.1 (Ptree.data p.2)) [])
  | .error _ => .error (.rtPtr attributesErrMsg)

/-- Rich-text branch of readSharedStrings: `s = s + r.second.get_child("t").data()`
over ALL children of the entry; a child without a `t` child throws ptree_error. -/
def concatRuns : List (String × Ptree) → String → Except Exc String
  | [], s => .ok s
  | (_, r) :: rest, s =>
    match Ptree.getChild r "t" with
    | .ok t => concatRuns rest (s ++ Ptree.data t)
    | .error e => .error e

/-- Body of one iteration of the readSharedStrings entry loop (after the
index increment): the string extracted from one `si` entry, or the
ptree_error it throws. -/
def parseEntry (t : Ptree) : Except Exc String :=
  if Ptree.hasChild t "r" then concatRuns (Ptree.children t) ""
  else
    match Ptree.getChild t "t" with
    | .ok string_tree => .ok (Ptree.data string_tree)
    | .error e => .error e

/-- Models `shared_strings_map[file_name].emplace(index, s)`: operator[]
fetches (or default-constructs) the inner map, emplace inserts, and the
result is stored back at the key. -/
def ssEmplace (m : Smap String (Smap Int String)) (file_name : String) (i : Int) (s : String) :
    Smap String (Smap Int String) :=
  Smap.setVal m file_name (Smap.emplace ((Smap.findVal m file_name).getD []) i s)

/-- The entry loop of ExcelParser::readSharedStrings, threading the outer
shared_strings_map.  `index` starts at -1 and `++index` is the FIRST
statement inside the per-entry try block, so every non-attribute entry
consumes an index whether or not its extraction then throws; a throwing
entry is skipped (ptree_error caught and logged) but the index was already
incremented.  parseEntry can only throw ptree_error, so the catch always
absorbs the failure. -/
def buildShared (file_name : String) :
    List (String × Ptree) → Int → Smap String (Smap Int String) → Smap String (Smap Int String)
  | [], _, m => m
  | (n, t) :: rest, index, m =>
    if n = XML_ATTR then buildShared file_name rest index m
    else
      match parseEntry t with
      | .ok s => buildShared file_name rest (index + 1) (ssEmplace m file_name (index + 1) s)
      | .error _ => buildShared file_name rest (index + 1) m

/-- ExcelParser::readSharedStrings.  readFileFromArchive is called OUTSIDE
the try blocks, so its (pointer) exception propagates with the map
untouched; a failing `get_child("sst")` is caught by the outer
catch (ptree_error) and merely logged. -/
def readSharedStrings (file_name : String) (book : List ZipEntry)
    (ssm : Smap String (Smap Int String)) : Except Exc Unit × Smap String (Smap Int String) :=
  match readFileFromArchive book "sharedStrings.xml" with
  | .error e => (.error e, ssm)
  | .ok strings_tree =>
    match Ptree.getChild strings_tree "sst" with
    | .error _ => (.ok (), ssm)
    | .ok string_trees => (.ok (), buildShared file_name (Ptree.children string_trees) (-1) ssm)

/-- The workbook.sheets loop of readWorkbookToTrees: builds id_name_map.
The try block wraps the WHOLE loop, so a ptree_error from any entry aborts
the remaining entries (keeping what was already inserted); a stoi failure
(invalid_argument / out_of_range, thrown after `.erase(0, 3)` on the r:id
value) is not a ptree_error and therefore escapes readWorkbookToTrees. -/
def buildIdName : List (String × Ptree) → Smap Int String → Smap Int String × Except Exc Unit
  | [], m => (m, .ok ())
  | (_, sv) :: rest, m =>
    match (do
      let sheet_attributes ← Ptree.getChild sv XML_ATTR
      let nameNode ← Ptree.getChild sheet_attributes "name"
      let ridNode ← Ptree.getChild sheet_attributes "r:id"
      let id ← stoi (String.mk ((Ptree.data ridNode).data.drop 3))
      pure (id, Ptree.data nameNode) : Except Exc (Int × String)) with
    | .ok p => buildIdName rest (Smap.emplace m p.1 p.2)
    | .error e => (m, .error e)

/-- The per-sheet read loop of readWorkbookToTrees: reads `sheet{N}.xml`
for each id in ascending id order.  The catch clause is
`catch (std::runtime_error)`, but readFileFromArchive throws POINTERS
(Exc.rtPtr), which that handler does not match: a failing member read
therefore propagates out instead of being skipped. -/
def sheetLoop (book : List ZipEntry) :
    List (Int × String) → Smap String Ptree → Except Exc (Smap String Ptree)
  | [], acc => .ok acc
  | (id, nm) :: rest, acc =>
    match readFileFromArchive book ("sheet" ++ toString id ++ ".xml") with
    | .ok sheet_tree => sheetLoop book rest (Smap.emplace acc nm sheet_tree)
    | .error e =>
      if Exc.isRuntimeError e then sheetLoop book rest acc
      else .error e

/-- ExcelParser::readWorkbookToTrees.  The workbook read is wrapped in
`catch (std::runtime_error)` followed by `exit(1)`, but readFileFromArchive
throws pointers (Exc.rtPtr), so the handler never fires and the exception
propagates. -/
def readWorkbookToTrees (book : List ZipEntry) : Except Exc (Smap String Ptree) :=
  match readFileFromArchive book "workbook.xml" with
  | .error e => if Exc.isRuntimeError e then .error (.procExit 1) else .error e
  | .ok workbook_tree =>
    let built : Smap Int String × Except Exc Unit :=
      match Ptree.getChildPath workbook_tree ["workbook", "sheets"] with
      | .error _ => ([], .ok ())
      | .ok sheets_tree => buildIdName (Ptree.children sheets_tree) []
    match built.2 with
    | .error e =>
      if Exc.isPtreeError e then sheetLoop book built.1 []
      else .error e
    | .ok _ => sheetLoop book built.1 []

/-- Body of the cell loop of ExcelParser::parseSheet, in source order:
value node first, then attributes, then the `r` reference (column key =
reference with all non-alphabetic characters removed by the
erase/remove_if lambda over isalpha), then the `t` type attribute probe
whose std::out_of_range is caught locally and mapped to NUMBER. -/
def parseCellBody (column_tree : Ptree) : Except Exc (String × cell_t) :=
  match Ptree.getChild column_tree "v" with
  | .error e => .error e
  | .ok v =>
    match getAttributes column_tree with
    | .error e => .error e
    | .ok cell_attributes =>
      match Smap.atVal cell_attributes "r" with
      | .error e => .error e
      | .ok ref =>
        let cell_name := String.mk (ref.data.filter Char.isAlpha)
        let cell_type :=
          match Smap.atVal cell_attributes "t" with
          | .ok _ => CellType.STRING
          | .error _ => CellType.NUMBER
        .ok (cell_name, { type := cell_type, value := Ptree.data v })

/-- The cell loop of parseSheet: cells are emplaced (std::map::emplace, so
an existing column key is kept, not overwritten); the per-cell catch
handles only ptree_error, so any other exception escapes to the row level. -/
def parseCells : List (String × Ptree) → row → Except Exc row
  | [], r => .ok r
  | (cname, column_tree) :: rest, r =>
    if cname = "c" then
      match parseCellBody column_tree with
      | .ok kc => parseCells rest (Smap.emplace r kc.1 kc.2)
      | .error e => if Exc.isPtreeError e then parseCells rest r else .error e
    else parseCells rest r

/-- Body of the row loop of parseSheet, in source order: attributes, the
`r` attribute via map::at, stoi, then the cell loop. -/
def parseRowBody (row_tree : Ptree) : Except Exc (Int × row) :=
  match getAttributes row_tree with
  | .error e => .error e
  | .ok attrs =>
    match Smap.atVal attrs "r" with
    | .error e => .error e
    | .ok rstr =>
      match stoi rstr with
      | .error e => .error e
      | .ok row_id =>
        match parseCells (Ptree.children row_tree) [] with
        | .error e => .error e
        | .ok r => .ok (row_id, r)

/-- The row loop of parseSheet.  The three catch clauses are
ptree_error, std::runtime_error and std::out_of_range; an exception of any
other kind (Exc.rtPtr from getAttributes, Exc.invArg from stoi on a
non-numeric `r`) matches none of them and propagates out of parseSheet. -/
def parseRows : List (String × Ptree) → sheet → Except Exc sheet
  | [], s => .ok s
  | (nm, row_tree) :: rest, s =>
    if nm = "row" then
      match parseRowBody row_tree with
      | .ok ir => parseRows rest (Smap.emplace s ir.1 ir.2)
      | .error e =>
        if Exc.isPtreeError e || Exc.isRuntimeError e || Exc.isOutOfRange e then parseRows rest s
        else .error e
    else parseRows rest s

/-- ExcelParser::parseSheet.  The `get_child("worksheet.sheetData")` call is
outside every try block, so its ptree_error propagates out of parseSheet. -/
def parseSheet (sheet_tree : Ptree) : Except Exc sheet :=
  match Ptree.getChildPath sheet_tree ["worksheet", "sheetData"] with
  | .error e => .error e
  | .ok rows_tree => parseRows (Ptree.children rows_tree) []

/-- ExcelParser::parseSheetTrees, threading the outer sheets_map: each sheet
tree is parsed and emplaced; there is no try block here, so a parseSheet
exception propagates, keeping the sheets already emplaced. -/
def parseSheetTrees (file_name : String) : List (String × Ptree) →
    Smap String (Smap String sheet) → Except Exc Unit × Smap String (Smap String sheet)
  | [], shm => (.ok (), shm)
  | (nm, tree) :: rest, shm =>
    match parseSheet tree with
    | .error e => (.error e, shm)
    | .ok sh =>
      parseSheetTrees file_name rest
        (Smap.setVal shm file_name (Smap.emplace ((Smap.findVal shm file_name).getD []) nm sh))

/-- The two static registries of the ExcelParser singleton. -/
structure RegState where
  shared_strings_map : Smap String (Smap Int String)
  sheets_map : Smap String (Smap String sheet)
deriving Repr

/-- Result of zip_open on a path: either a nonzero error code or the
archive member list.  (On failure libzip stores a nonzero code in `err`,
which openExcelFile turns into a runtime_error thrown by value.) -/
inductive ZipOpenResult where
  | fail (err : Int)
  | opened (book : List ZipEntry)

/-- ExcelParser::openExcelFile over an explicit filesystem `disk`.  The
static registries are mutated in place in the source, so a propagating
exception keeps every mutation made before the throw; the returned state
reflects that. -/
def openExcelFile (disk : String → ZipOpenResult) (file_name : String) (st : RegState) :
    Except Exc Unit × RegState :=
  if Smap.contains st.sheets_map file_name then (.ok (), st)
  else
    match disk file_name with
    | .fail err => (.error (.rt (zipOpenErrMsg err)), st)
    | .opened book =>
      match readSharedStrings file_name book st.shared_strings_map with
      | (.error e, ssm) => (.error e, { st with shared_strings_map := ssm })
      | (.ok _, ssm) =>
        match readWorkbookToTrees book with
        | .error e => (.error e, { st with shared_strings_map := ssm })
        | .ok trees =>
          let res := parseSheetTrees file_name trees st.sheets_map
          (res.1, { shared_strings_map := ssm, sheets_map := res.2 })

/-- ExcelParser::closeExcelFile. -/
def closeExcelFile (file_name : String) (st : RegState) : RegState :=
  let shm :=
    if Smap.contains st.sheets_map file_name then Smap.erase st.sheets_map file_name
    else st.sheets_map
  let ssm :=
    if Smap.contains st.shared_strings_map file_name then Smap.erase st.shared_strings_map file_name
    else st.shared_strings_map
  { shared_strings_map := ssm, sheets_map := shm }

/-- ExcelParser::getSheet. -/
def getSheet (st : RegState) (file_name sheet_name : String) : Except Exc sheet :=
  match Smap.findVal st.sheets_map file_name with
  | none => .error (.rt (docNotOpenMsg file_name))
  | some inner =>
    match Smap.findVal inner sheet_name with
    | none => .error (.rt (sheetNotFoundMsg sheet_name file_name))
    | some s => .ok s

/-- ExcelParser::getSharedString. -/
def getSharedString (st : RegState) (file_name : String) (shared_string_index : Int) :
    Except Exc String :=
  match Smap.findVal st.shared_strings_map file_name with
  | none => .error (.rt (docNotOpenMsg file_name))
  | some inner =>
    match Smap.findVal inner shared_string_index with
    | none => .error (.rt (sharedStringNotFoundMsg shared_string_index file_name))
    | some s => .ok s

/-- ExcelParser::getSheetNames: the keys of the inner sheet map in its
iteration (key) order. -/
def getSheetNames (st : RegState) (file_name : String) : Except Exc (List String) :=
  match Smap.findVal st.sheets_map file_name with
  | none => .error (.rt (docNotOpenMsg file_name))
  | some inner => .ok (Smap.keys inner)

/-! ## Concrete inputs used to settle the claims -/

/-- The empty registry state. -/
def emptyState : RegState := { shared_strings_map := [], sheets_map := [] }

/-- A shared-strings part with a single plain entry "hello". -/
def sstTreeHello : Ptree :=
  .node "" [("sst", .node "" [("si", .node "" [("t", .node "hello" [])])])]

/-- Archive holding only a well-formed sharedStrings.xml and no workbook.xml. -/
def bookC1 : List ZipEntry :=
  [{ name := "xl/sharedStrings.xml", statValid := 3, readOk := true, xml := some sstTreeHello }]

def diskC1 : String → ZipOpenResult := fun _ => .opened bookC1

/-- A shared-strings part whose first entry is malformed (an `si` with no
`t` child and no runs) and whose second entry parses to "x". -/
def sstTreeBad : Ptree :=
  .node "" [("sst", .node "" [("si", .node "" []), ("si", .node "" [("t", .node "x" [])])])]

/-- Archive holding the malformed shared-strings part. -/
def bookC2 : List ZipEntry :=
  [{ name := "xl/sharedStrings.xml", statValid := 3, readOk := true, xml := some sstTreeBad }]

/-- A row node whose `r` attribute is the non-numeric string "abc". -/
def rowBadR : Ptree :=
  .node "" [("<xmlattr>", .node "" [("r", .node "abc" [])])]

/-- A well-formed row node with `r` = "2" and no cells. -/
def rowGood : Ptree :=
  .node "" [("<xmlattr>", .node "" [("r", .node "2" [])])]

/-- A sheet tree with one non-numeric-index row followed by a good row. -/
def treeC3 : Ptree :=
  .node "" [("worksheet", .node "" [("sheetData", .node "" [("row", rowBadR), ("row", rowGood)])])]

/-- A workbook `sheet` declaration with the given display name and r:id. -/
def sheetDecl (nm rid : String) : Ptree :=
  .node "" [("<xmlattr>", .node "" [("name", .node nm []), ("r:id", .node rid [])])]

/-- Workbook declaring sheets "A" (rId1) and "B" (rId2). -/
def workbookTreeC4 : Ptree :=
  .node "" [("workbook", .node ""
    [("sheets", .node "" [("sheet", sheetDecl "A" "rId1"), ("sheet", sheetDecl "B" "rId2")])])]

/-- A minimal valid sheet part (empty sheetData). -/
def minimalSheetTree : Ptree :=
  .node "" [("worksheet", .node "" [("sheetData", .node "" [])])]

/-- Archive with the two-sheet workbook but only sheet2.xml present:
sheet1.xml is referenced by the workbook yet missing from the archive. -/
def bookC4 : List ZipEntry :=
  [{ name := "xl/workbook.xml", statValid := 3, readOk := true, xml := some workbookTreeC4 },
   { name := "xl/worksheets/sheet2.xml", statValid := 3, readOk := true, xml := some minimalSheetTree }]

/-- A cell node with reference attribute `ref` and value text `val`
(no `t` attribute, so its type is NUMBER). -/
def cellNode (ref val : String) : Ptree :=
  .node "" [("v", .node val []), ("<xmlattr>", .node "" [("r", .node ref [])])]

/-- A row (index 1) containing two cells that both carry reference "A1":
the first has value "1", the second value "2". -/
def rowDup : Ptree :=
  .node "" [("<xmlattr>", .node "" [("r", .node "1" [])]),
    ("c", cellNode "A1" "1"), ("c", cellNode "A1" "2")]

/-- Sheet tree holding the duplicate-column row. -/
def treeC6 : Ptree :=
  .node "" [("worksheet", .node "" [("sheetData", .node "" [("row", rowDup)])])]

/-- Sheet tree with one row (index 1) holding a single cell with reference
attribute `ref` and value `val`. -/
def c9Tree (ref val : String) : Ptree :=
  .node "" [("worksheet", .node "" [("sheetData", .node ""
    [("row", .node "" [("<xmlattr>", .node "" [("r", .node "1" [])]), ("c", cellNode ref val)])])])]

/-- A registry state in which "f.xlsx" is registered (with no sheets). -/
def stReg : RegState := { shared_strings_map := [], sheets_map := [("f.xlsx", [])] }

/-! ## Analysis definitions -/

/-- Keys of the association list are strictly increasing: the
representation invariant of the std::map model. -/
def sortedKeys {K V : Type} [CmpKey K] (m : Smap K V) : Prop :=
  m.Pairwise (fun a b => CmpKey.ltb a.1 b.1 = true)

/-- Well-formedness of the sheets registry: every per-document sheet map is
key-sorted (as a std::map is). -/
def WFsheets (shm : Smap String (Smap String sheet)) : Prop :=
  ∀ p ∈ shm, sortedKeys p.2

/-- Well-formedness of the registry state. -/
def WF (st : RegState) : Prop := WFsheets st.sheets_map

/-- The shared-strings entry loop restricted to the single inner table of
the document being built (buildShared threads the whole outer map through
the operator-bracket/emplace dance; this is its effect on that one entry). -/
def innerBuild : List (String × Ptree) → Int → Smap Int String → Smap Int String
  | [], _, acc => acc
  | (n, t) :: rest, index, acc =>
    if n = XML_ATTR then innerBuild rest index acc
    else
      match parseEntry t with
      | .ok s => innerBuild rest (index + 1) (Smap.emplace acc (index + 1) s)
      | .error _ => innerBuild rest (index + 1) acc

/-- The indices the entry loop assigns to successfully parsed entries: every
non-attribute entry consumes the next index (starting at `index + 1`), and
only successful entries contribute their index. -/
def successIdx : List (String × Ptree) → Int → List Int
  | [], _ => []
  | (n, t) :: rest, index =>
    if n = XML_ATTR then successIdx rest index
    else
      match parseEntry t with
      | .ok _ => (index + 1) :: successIdx rest (index + 1)
      | .error _ => successIdx rest (index + 1)


/-! ## Derived comparator facts -/

theorem ltbNe {K : Type} [CmpKey K] {a b : K} (h : CmpKey.ltb a b = true) : a ≠ b := by
  intro hc
  rw [hc, CmpKey.ltbIrr] at h
  cases h

theorem ltbFlip {K : Type} [CmpKey K] {a b : K} (h1 : CmpKey.ltb a b = false) (h2 : a ≠ b) :
    CmpKey.ltb b a = true := by
  rcases CmpKey.ltbTotal h2 with h | h
  · rw [h1] at h; cases h
  · exact h

/-! ## Map lemmas -/

theorem findVal_setVal_self {K V : Type} [DecidableEq K] [CmpKey K] (m : Smap K V) (k : K) (v : V) :
    Smap.findVal (Smap.setVal m k v) k = some v := by
  induction m with
  | nil => simp [Smap.setVal, Smap.findVal]
  | cons hd t ih =>
    obtain ⟨k0, w⟩ := hd
    by_cases h1 : CmpKey.ltb k k0 = true
    · simp [Smap.setVal, h1, Smap.findVal]
    · by_cases h2 : k = k0
      · subst h2
        simp [Smap.setVal, CmpKey.ltbIrr, Smap.findVal]
      · simp [Smap.setVal, h1, h2, Smap.findVal, ih]

theorem findVal_erase_self {K V : Type} [DecidableEq K] (m : Smap K V) (k : K) :
    Smap.findVal (Smap.erase m k) k = none := by
  induction m with
  | nil => simp [Smap.erase, Smap.findVal]
  | cons hd t ih =>
    obtain ⟨k0, w⟩ := hd
    by_cases h : k = k0
    · subst h
      simp [Smap.erase, ih]
    · simp [Smap.erase, h, Smap.findVal, ih]

theorem contains_false_findVal {K V : Type} [DecidableEq K] {m : Smap K V} {q : K}
    (h : Smap.contains m q = false) : Smap.findVal m q = none := by
  cases hfv : Smap.findVal m q with
  | none => rfl
  | some v => rw [Smap.contains, hfv] at h; cases h

theorem findVal_mem {K V : Type} [DecidableEq K] {m : Smap K V} {k : K} {v : V}
    (h : Smap.findVal m k = some v) : (k, v) ∈ m := by
  induction m with
  | nil => simp [Smap.findVal] at h
  | cons hd t ih =>
    obtain ⟨k0, w⟩ := hd
    by_cases h1 : k = k0
    · rw [Smap.findVal, if_pos h1] at h
      injection h with h
      subst h1; subst h
      exact List.mem_cons_self _ _
    · rw [Smap.findVal, if_neg h1] at h
      exact List.mem_cons_of_mem _ (ih h)

theorem mem_emplace {K V : Type} [DecidableEq K] [CmpKey K] {m : Smap K V} {k : K} {v : V}
    {x : K × V} (hx : x ∈ Smap.emplace m k v) : x = (k, v) ∨ x ∈ m := by
  induction m with
  | nil =>
    rw [Smap.emplace] at hx
    exact Or.inl (List.mem_singleton.mp hx)
  | cons hd t ih =>
    obtain ⟨k0, w⟩ := hd
    by_cases h1 : CmpKey.ltb k k0 = true
    · rw [Smap.emplace, if_pos h1] at hx
      simpa using hx
    · by_cases h2 : k = k0
      · rw [Smap.emplace, if_neg h1, if_pos h2] at hx
        tauto
      · rw [Smap.emplace, if_neg h1, if_neg h2] at hx
        rcases List.mem_cons.mp hx with h | h
        · right; exact List.mem_cons.mpr (Or.inl h)
        · rcases ih h with h | h
          · exact Or.inl h
          · right; exact List.mem_cons.mpr (Or.inr h)

theorem mem_setVal {K V : Type} [DecidableEq K] [CmpKey K] {m : Smap K V} {k : K} {v : V}
    {x : K × V} (hx : x ∈ Smap.setVal m k v) : x = (k, v) ∨ x ∈ m := by
  induction m with
  | nil =>
    rw [Smap.setVal] at hx
    exact Or.inl (List.mem_singleton.mp hx)
  | cons hd t ih =>
    obtain ⟨k0, w⟩ := hd
    by_cases h1 : CmpKey.ltb k k0 = true
    · rw [Smap.setVal, if_pos h1] at hx
      simpa using hx
    · by_cases h2 : k = k0
      · rw [Smap.setVal, if_neg h1, if_pos h2] at hx
        rcases List.mem_cons.mp hx with h | h
        · exact Or.inl h
        · right; exact List.mem_cons.mpr (Or.inr h)
      · rw [Smap.setVal, if_neg h1, if_neg h2] at hx
        rcases List.mem_cons.mp hx with h | h
        · right; exact List.mem_cons.mpr (Or.inl h)
        · rcases ih h with h | h
          · exact Or.inl h
          · right; exact List.mem_cons.mpr (Or.inr h)

theorem mem_erase {K V : Type} [DecidableEq K] {m : Smap K V} {k : K} {x : K × V}
    (hx : x ∈ Smap.erase m k) : x ∈ m := by
  induction m with
  | nil =>
    rw [Smap.erase] at hx
    exact hx
  | cons hd t ih =>
    obtain ⟨k0, w⟩ := hd
    by_cases h : k = k0
    · rw [Smap.erase, if_pos h] at hx
      exact List.mem_cons_of_mem _ (ih hx)
    · rw [Smap.erase, if_neg h] at hx
      rcases List.mem_cons.mp hx with h1 | h1
      · exact List.mem_cons.mpr (Or.inl h1)
      · exact List.mem_cons_of_mem _ (ih h1)

theorem emplace_sorted {K V : Type} [DecidableEq K] [CmpKey K] {m : Smap K V} (k : K) (v : V)
    (h : sortedKeys m) : sortedKeys (Smap.emplace m k v) := by
  induction m with
  | nil => simp [Smap.emplace, sortedKeys]
  | cons hd t ih =>
    obtain ⟨k0, w⟩ := hd
    rw [sortedKeys, List.pairwise_cons] at h
    obtain ⟨h0, ht⟩ := h
    by_cases h1 : CmpKey.ltb k k0 = true
    · rw [sortedKeys, Smap.emplace, if_pos h1]
      rw [List.pairwise_cons]
      constructor
      · intro y hy
        rcases List.mem_cons.mp hy with h2 | h2
        · subst h2; exact h1
        · exact CmpKey.ltbTrans h1 (h0 y h2)
      · rw [List.pairwise_cons]
        exact ⟨h0, ht⟩
    · by_cases h2 : k = k0
      · rw [sortedKeys, Smap.emplace, if_neg h1, if_pos h2, List.pairwise_cons]
        exact ⟨h0, ht⟩
      · rw [sortedKeys, Smap.emplace, if_neg h1, if_neg h2, List.pairwise_cons]
        constructor
        · intro y hy
          have h1f : CmpKey.ltb k k0 = false := by simpa using h1
          rcases mem_emplace hy with h3 | h3
          · subst h3
            exact ltbFlip h1f h2
          · exact h0 y h3
        · exact ih ht

theorem findVal_emplace_of_sorted {K V : Type} [DecidableEq K] [CmpKey K] {m : Smap K V}
    {q : K} {c : V} (hs : sortedKeys m) (hf : Smap.findVal m q = some c) (k : K) (v : V) :
    Smap.findVal (Smap.emplace m k v) q = some c := by
  induction m with
  | nil => simp [Smap.findVal] at hf
  | cons hd t ih =>
    obtain ⟨k0, w⟩ := hd
    rw [sortedKeys, List.pairwise_cons] at hs
    obtain ⟨h0, ht⟩ := hs
    by_cases h1 : CmpKey.ltb k k0 = true
    · have hqk : q ≠ k := by
        by_cases hq0 : q = k0
        · subst hq0
          exact fun hc => (ltbNe h1) hc.symm
        · rw [Smap.findVal, if_neg hq0] at hf
          have hmem := findVal_mem hf
          have hk0q : CmpKey.ltb k0 q = true := h0 (q, c) hmem
          exact fun hc => (ltbNe (CmpKey.ltbTrans h1 hk0q)) hc.symm
      rw [Smap.emplace, if_pos h1, Smap.findVal, if_neg hqk]
      exact hf
    · by_cases h2 : k = k0
      · rw [Smap.emplace, if_neg h1, if_pos h2]
        exact hf
      · rw [Smap.emplace, if_neg h1, if_neg h2]
        by_cases hq0 : q = k0
        · rw [Smap.findVal, if_pos hq0] at hf ⊢
          exact hf
        · rw [Smap.findVal, if_neg hq0] at hf ⊢
          exact ih ht hf

theorem emplace_append_of_gt {K V : Type} [DecidableEq K] [CmpKey K] {m : Smap K V} (k : K) (v : V)
    (h : ∀ x ∈ m, CmpKey.ltb x.1 k = true) : Smap.emplace m k v = m ++ [(k, v)] := by
  induction m with
  | nil => simp [Smap.emplace]
  | cons hd t ih =>
    obtain ⟨k0, w⟩ := hd
    have hk0 : CmpKey.ltb k0 k = true := h (k0, w) (List.mem_cons_self _ _)
    have h1 : CmpKey.ltb k k0 = false := by
      cases hkb : CmpKey.ltb k k0 with
      | false => rfl
      | true => have := CmpKey.ltbIrr k0; rw [CmpKey.ltbTrans hk0 hkb] at this; cases this
    have h2 : k ≠ k0 := fun hc => ltbNe hk0 hc.symm
    rw [Smap.emplace, if_neg (by simp [h1]), if_neg h2, ih (fun x hx => h x (List.mem_cons_of_mem _ hx))]
    simp


/-! ## Shared-strings indexing lemmas -/

theorem buildShared_findVal (f : String) (entries : List (String × Ptree)) :
    ∀ (index : Int) (m : Smap String (Smap Int String)),
      (Smap.findVal (buildShared f entries index m) f).getD [] =
        innerBuild entries index ((Smap.findVal m f).getD []) := by
  induction entries with
  | nil =>
    intro i m
    simp [buildShared, innerBuild]
  | cons hd rest ih =>
    intro i m
    obtain ⟨n, t⟩ := hd
    by_cases hn : n = XML_ATTR
    · simp only [buildShared, innerBuild, if_pos hn]
      exact ih i m
    · cases hp : parseEntry t with
      | ok s =>
        simp only [buildShared, innerBuild, if_neg hn, hp]
        rw [ih]
        rw [ssEmplace, findVal_setVal_self]
        rfl
      | error e =>
        simp only [buildShared, innerBuild, if_neg hn, hp]
        exact ih (i + 1) m

theorem innerBuild_keys (entries : List (String × Ptree)) :
    ∀ (index : Int) (acc : Smap Int String), (∀ k ∈ Smap.keys acc, k ≤ index) →
      Smap.keys (innerBuild entries index acc) = Smap.keys acc ++ successIdx entries index := by
  induction entries with
  | nil =>
    intro i acc h
    simp [innerBuild, successIdx]
  | cons hd rest ih =>
    intro i acc h
    obtain ⟨n, t⟩ := hd
    by_cases hn : n = XML_ATTR
    · simp only [innerBuild, successIdx, if_pos hn]
      exact ih i acc h
    · cases hp : parseEntry t with
      | ok s =>
        have hlt : ∀ x ∈ acc, CmpKey.ltb x.1 (i + 1) = true := by
          intro x hx
          have hle : x.1 ≤ i := h x.1 (List.mem_map_of_mem _ hx)
          show decide (x.1 < i + 1) = true
          simp only [decide_eq_true_eq]
          omega
        simp only [innerBuild, successIdx, if_neg hn, hp]
        rw [emplace_append_of_gt _ _ hlt]
        rw [ih (i + 1) _ ?side]
        case side =>
          intro k hk
          rw [Smap.keys, List.map_append] at hk
          rcases List.mem_append.mp hk with h1 | h1
          · have := h k h1
            omega
          · simp at h1
            omega
        rw [Smap.keys, List.map_append]
        simp [Smap.keys]
      | error e =>
        have h2 : ∀ k ∈ Smap.keys acc, k ≤ i + 1 := by
          intro k hk
          have := h k hk
          omega
        simp only [innerBuild, successIdx, if_neg hn, hp]
        exact ih (i + 1) acc h2

/-! ## Registry well-formedness lemmas -/

theorem parseSheetTrees_wf (f : String) (trees : List (String × Ptree)) :
    ∀ shm, WFsheets shm → WFsheets (parseSheetTrees f trees shm).2 := by
  induction trees with
  | nil =>
    intro shm h
    simpa [parseSheetTrees] using h
  | cons hd rest ih =>
    intro shm h
    obtain ⟨nm, tree⟩ := hd
    cases hp : parseSheet tree with
    | error e =>
      simp only [parseSheetTrees, hp]
      exact h
    | ok sh =>
      simp only [parseSheetTrees, hp]
      apply ih
      intro p hp2
      rcases mem_setVal hp2 with h1 | h1
      · have hinner : sortedKeys ((Smap.findVal shm f).getD []) := by
          cases hfv : Smap.findVal shm f with
          | none => simp [sortedKeys]
          | some inner =>
            simpa using h _ (findVal_mem hfv)
        rw [h1]
        exact emplace_sorted nm sh hinner
      · exact h p h1

theorem openExcelFile_wf (disk : String → ZipOpenResult) (f : String) (st : RegState)
    (h : WF st) : WF (openExcelFile disk f st).2 := by
  rw [WF] at h ⊢
  rw [openExcelFile]
  split
  · exact h
  · split
    · exact h
    · split
      · exact h
      · split
        · exact h
        · exact parseSheetTrees_wf f _ st.sheets_map h

theorem closeExcelFile_wf (f : String) (st : RegState) (h : WF st) :
    WF (closeExcelFile f st) := by
  rw [WF, closeExcelFile] at *
  intro p hp
  by_cases hc : Smap.contains st.sheets_map f
  · rw [if_pos hc] at hp
    exact h p (mem_erase hp)
  · rw [if_neg hc] at hp
    exact h p hp

theorem getSheetNames_pairwise {st : RegState} {g : String} {l : List String}
    (h : WF st) (hg : getSheetNames st g = .ok l) : l.Pairwise (fun a b => a < b) := by
  rw [getSheetNames] at hg
  cases hfv : Smap.findVal st.sheets_map g with
  | none => rw [hfv] at hg; cases hg
  | some inner =>
    rw [hfv] at hg
    injection hg with hl
    have hs : sortedKeys inner := h _ (findVal_mem hfv)
    rw [sortedKeys] at hs
    rw [← hl, Smap.keys, List.pairwise_map]
    refine hs.imp ?_
    intro a b hab
    have : decide (a.1.data < b.1.data) = true := hab
    rw [decide_eq_true_eq] at this
    exact String.lt_iff_toList_lt.mpr this


/-! ## Registry helper lemmas for close -/

theorem close_sheets_findVal (f : String) (st : RegState) :
    Smap.findVal (closeExcelFile f st).sheets_map f = none := by
  rw [closeExcelFile]
  by_cases h : Smap.contains st.sheets_map f = true
  · simp only [if_pos h]
    exact findVal_erase_self _ _
  · simp only [if_neg h]
    exact contains_false_findVal (by simpa using h)

theorem close_shared_findVal (f : String) (st : RegState) :
    Smap.findVal (closeExcelFile f st).shared_strings_map f = none := by
  rw [closeExcelFile]
  by_cases h : Smap.contains st.shared_strings_map f = true
  · simp only [if_pos h]
    exact findVal_erase_self _ _
  · simp only [if_neg h]
    exact contains_false_findVal (by simpa using h)

/-! ## Claim theorems -/

/-- Claim C1, counterexample: opening an archive that contains a
well-formed sharedStrings.xml but no workbook.xml fails (the metadata
error thrown as a pointer propagates), yet leaves the shared-strings table
for the path registered while the sheets registry has no entry for it:
getSharedString succeeds while getSheet reports the document as not open,
the partially-registered observation the claim rules out. -/
theorem open_partial_registration_observed :
    (openExcelFile diskC1 "f.xlsx" emptyState).1 =
      .error (.rtPtr (archiveMetadataMsg "workbook.xml" 0)) ∧
    getSharedString (openExcelFile diskC1 "f.xlsx" emptyState).2 "f.xlsx" 0 = .ok "hello" ∧
    getSheet (openExcelFile diskC1 "f.xlsx" emptyState).2 "f.xlsx" "Sheet1" =
      .error (.rt (docNotOpenMsg "f.xlsx")) :=
  ⟨rfl, rfl, rfl⟩

/-- Claim C1, amended: open is atomic only up to the shared-strings stage.
If zip_open itself fails, the registry is unchanged; and when the
sharedStrings.xml member read fails (that read happens before any map
mutation), the error propagates out of readSharedStrings with the
shared-strings registry unchanged. -/
theorem open_state_unchanged_before_sharedStrings :
    (∀ (disk : String → ZipOpenResult) (f : String) (st : RegState) (err : Int),
      disk f = ZipOpenResult.fail err → (openExcelFile disk f st).2 = st) ∧
    (∀ (f : String) (book : List ZipEntry) (ssm : Smap String (Smap Int String)) (e : Exc),
      readFileFromArchive book "sharedStrings.xml" = Except.error e →
        readSharedStrings f book ssm = (Except.error e, ssm)) := by
  constructor
  · intro disk f st err hd
    rw [openExcelFile]
    split
    · rfl
    · rw [hd]
  · intro f book ssm e hr
    rw [readSharedStrings, hr]

/-- Witness for the amended C1 theorem: a concrete failing zip_open and a
concrete failing shared-strings member read. -/
theorem open_state_unchanged_before_sharedStrings_witness :
    (openExcelFile (fun _ => ZipOpenResult.fail 5) "a.xlsx" emptyState).2 = emptyState ∧
    readSharedStrings "a.xlsx" [] [] =
      (Except.error (Exc.rtPtr (archiveMetadataMsg "sharedStrings.xml" 0)), []) :=
  ⟨open_state_unchanged_before_sharedStrings.1 (fun _ => ZipOpenResult.fail 5) "a.xlsx"
      emptyState 5 rfl,
    open_state_unchanged_before_sharedStrings.2 "a.xlsx" [] []
      (Exc.rtPtr (archiveMetadataMsg "sharedStrings.xml" 0)) rfl⟩

/-- Claim C2, counterexample: a shared-strings tree whose first entry is
malformed and whose second parses to "x" yields the table {1 ↦ "x"}: one
entry parsed successfully (k = 1) but the key set is {1}, not {0}. The
skipped entry consumed index 0 because `++index` precedes the extraction
inside the try block. -/
theorem sharedStrings_skipped_entry_consumes_index :
    (readSharedStrings "f.xlsx" bookC2 []).2 = [("f.xlsx", [((1 : Int), "x")])] ∧
    Smap.keys [((1 : Int), "x")] ≠ [(0 : Int)] :=
  ⟨rfl, by decide⟩

/-- Claim C2, amended: every non-attribute entry consumes the next
sequential index starting at 0, whether or not it parses; a throwing entry
is merely absent from the table.  The key set of the built table is exactly
the set of positions (0-based over all non-attribute entries) of the
successfully parsed entries. -/
theorem sharedStrings_index_positions (f : String) (entries : List (String × Ptree)) :
    Smap.keys ((Smap.findVal (buildShared f entries (-1) []) f).getD []) =
      successIdx entries (-1) := by
  rw [buildShared_findVal]
  have h1 : (Smap.findVal ([] : Smap String (Smap Int String)) f).getD [] = [] := rfl
  rw [h1]
  have h0 : ∀ k ∈ Smap.keys ([] : Smap Int String), k ≤ -1 := by
    intro k hk
    cases hk
  rw [innerBuild_keys entries (-1) [] h0]
  rfl

/-- Claim C3 (code bug): a row whose `r` attribute is the non-numeric
string "abc" makes stoi throw std::invalid_argument, which none of
parseSheet's catch clauses (ptree_error, runtime_error, out_of_range)
matches; the exception propagates out of parseSheet and the whole sheet is
lost, including the well-formed second row. -/
theorem parseSheet_nonnumeric_row_aborts :
    parseSheet treeC3 = .error (.invArg "stoi") :=
  rfl

/-- Claim C4 (code bug): with sheet1.xml missing from the archive and
sheet2.xml present, the member-read failure for sheet1.xml is thrown as a
pointer (`throw new`), which `catch (std::runtime_error)` does not match:
readWorkbookToTrees aborts instead of skipping sheet1 and parsing sheet2. -/
theorem workbook_missing_sheet_member_aborts :
    readWorkbookToTrees bookC4 = .error (.rtPtr (archiveMetadataMsg "sheet1.xml" 0)) :=
  rfl

/-- Claim C5 (code bug): requesting any member from an archive that does
not contain it produces the ArchiveMetadataError, not ArchiveMemberNotFound:
`location` is unsigned, so the `location < 0` test on zip_name_locate's -1
is dead and the lookup falls through to the metadata-validity check. -/
theorem readFileFromArchive_member_not_found_misreported (file_name : String) :
    readFileFromArchive [] file_name = .error (.rtPtr (archiveMetadataMsg file_name 0)) := by
  simp only [readFileFromArchive, zip_name_locate, List.findIdx?]
  rfl

/-- Claim C6, counterexample: a row with two cells both referencing "A1"
(values "1" then "2") stores the FIRST cell's value under column key "A":
std::map::emplace does not overwrite, so last-write-wins fails at this
input (the claim would require value "2"). -/
theorem duplicate_column_keeps_first :
    parseSheet treeC6 = .ok [((1 : Int), [("A", { type := CellType.NUMBER, value := "1" })])] ∧
    ({ type := CellType.NUMBER, value := "1" } : cell_t) ≠ { type := CellType.NUMBER, value := "2" } :=
  ⟨rfl, by decide⟩

/-- Claim C6, amended: duplicate column keys within a row are
first-write-wins: an entry already present in the row mapping is preserved
by the processing of every later cell in the row. -/
theorem parseCells_existing_entry_preserved (cells : List (String × Ptree)) :
    ∀ (r r2 : row) (k : String) (c : cell_t), sortedKeys r →
      Smap.findVal r k = some c → parseCells cells r = .ok r2 →
      Smap.findVal r2 k = some c := by
  induction cells with
  | nil =>
    intro r r2 k c hs hf hp
    rw [parseCells] at hp
    injection hp with hp
    rw [← hp]
    exact hf
  | cons hd rest ih =>
    intro r r2 k c hs hf hp
    obtain ⟨cname, ct⟩ := hd
    by_cases hc : cname = "c"
    · simp only [parseCells, if_pos hc] at hp
      cases hb : parseCellBody ct with
      | ok kc =>
        rw [hb] at hp
        have hp2 : parseCells rest (Smap.emplace r kc.1 kc.2) = Except.ok r2 := hp
        exact ih _ _ _ _ (emplace_sorted _ _ hs) (findVal_emplace_of_sorted hs hf _ _) hp2
      | error e =>
        rw [hb] at hp
        have hp2 : (if Exc.isPtreeError e = true then parseCells rest r else Except.error e) =
            Except.ok r2 := hp
        by_cases hpe : Exc.isPtreeError e = true
        · rw [if_pos hpe] at hp2
          exact ih _ _ _ _ hs hf hp2
        · rw [if_neg hpe] at hp2
          cases hp2
    · simp only [parseCells, if_neg hc] at hp
      exact ih _ _ _ _ hs hf hp

/-- Witness for the amended C6 theorem: a second "A1" cell with value "2"
leaves the existing "A" entry (value "1") untouched. -/
theorem parseCells_existing_entry_preserved_witness :
    Smap.findVal [("A", ({ type := CellType.NUMBER, value := "1" } : cell_t))] "A" =
      some { type := CellType.NUMBER, value := "1" } :=
  parseCells_existing_entry_preserved [("c", cellNode "A1" "2")]
    [("A", { type := CellType.NUMBER, value := "1" })]
    [("A", { type := CellType.NUMBER, value := "1" })] "A"
    { type := CellType.NUMBER, value := "1" }
    (by simp [sortedKeys]) rfl rfl

/-- Claim C7: when the path is already registered in sheets_map, open
returns normally at once, the state is unchanged, and the result does not
depend on the filesystem at all (no archive I/O). -/
theorem open_idempotent_when_registered (disk disk2 : String → ZipOpenResult) (f : String)
    (st : RegState) (h : Smap.contains st.sheets_map f = true) :
    openExcelFile disk f st = (.ok (), st) ∧
    openExcelFile disk f st = openExcelFile disk2 f st := by
  constructor
  · rw [openExcelFile, if_pos h]
  · rw [openExcelFile, if_pos h, openExcelFile, if_pos h]

/-- Witness for C7 at a concrete registered state and two different disks. -/
theorem open_idempotent_when_registered_witness :
    openExcelFile (fun _ => ZipOpenResult.fail 1) "f.xlsx" stReg = (.ok (), stReg) :=
  (open_idempotent_when_registered (fun _ => ZipOpenResult.fail 1)
    (fun _ => ZipOpenResult.fail 2) "f.xlsx" stReg rfl).1

/-- Claim C8: after close, every query on the path fails with the
DocumentNotOpen error, and close on a path registered in neither map is a
no-op. -/
theorem close_then_queries_fail (st : RegState) (f sn : String) (i : Int) :
    getSheet (closeExcelFile f st) f sn = .error (.rt (docNotOpenMsg f)) ∧
    getSharedString (closeExcelFile f st) f i = .error (.rt (docNotOpenMsg f)) ∧
    getSheetNames (closeExcelFile f st) f = .error (.rt (docNotOpenMsg f)) ∧
    (Smap.contains st.sheets_map f = false → Smap.contains st.shared_strings_map f = false →
      closeExcelFile f st = st) := by
  refine ⟨?_, ?_, ?_, ?_⟩
  · rw [getSheet, close_sheets_findVal]
  · rw [getSharedString, close_shared_findVal]
  · rw [getSheetNames, close_sheets_findVal]
  · intro h1 h2
    rw [closeExcelFile, if_neg (by simp [h2]), if_neg (by simp [h1])]

/-- Witness for C8: closing a path absent from the empty registry leaves
it unchanged (the queries-fail conjuncts are hypothesis-free). -/
theorem close_then_queries_fail_witness :
    closeExcelFile "a.xlsx" emptyState = emptyState :=
  (close_then_queries_fail emptyState "a.xlsx" "s" 0).2.2.2 rfl rfl

/-- Claim C9: for every cell reference `ref` and value `val`, the cell is
stored under the column key obtained from `ref` by removing every
non-alphabetic character, independent of the rest of the reference. -/
theorem cell_column_key_is_alpha_filter (ref val : String) :
    parseSheet (c9Tree ref val) =
      .ok [((1 : Int), [(String.mk (ref.data.filter Char.isAlpha),
        { type := CellType.NUMBER, value := val })])] :=
  rfl

/-- Claim C10: the registry keeps each document's sheet map key-sorted
(the empty state is well-formed and open/close preserve well-formedness),
and on every well-formed state getSheetNames returns the names in strictly
ascending lexicographic String order with no duplicates. -/
theorem getSheetNames_sorted_nodup :
    WF emptyState ∧
    (∀ (disk : String → ZipOpenResult) (f : String) (st : RegState),
      WF st → WF (openExcelFile disk f st).2) ∧
    (∀ (f : String) (st : RegState), WF st → WF (closeExcelFile f st)) ∧
    (∀ (st : RegState) (g : String) (l : List String), WF st → getSheetNames st g = .ok l →
      l.Pairwise (fun a b => a < b) ∧ l.Nodup) := by
  refine ⟨?_, ?_, ?_, ?_⟩
  · intro p hp
    cases hp
  · exact openExcelFile_wf
  · exact closeExcelFile_wf
  · intro st g l h hg
    have hp := getSheetNames_pairwise h hg
    exact ⟨hp, hp.imp ne_of_lt⟩

/-- Witness for C10 at a concrete well-formed two-sheet state. -/
theorem getSheetNames_sorted_nodup_witness :
    List.Pairwise (fun a b : String => a < b) ["A", "B"] ∧ ["A", "B"].Nodup :=
  getSheetNames_sorted_nodup.2.2.2
    { shared_strings_map := [], sheets_map := [("f.xlsx", [("A", []), ("B", [])])] }
    "f.xlsx" ["A", "B"]
    (by
      intro p hp
      rw [List.mem_singleton] at hp
      subst hp
      show List.Pairwise _ _
      decide)
    rfl

end ExcelParser
